import Mathlib

/-!
Shallow embedding of `src/build_database.py` (three-tier IP range database
builder) and verification of the specification's claims about it.

The embedding models:
* the static tier configuration `TIER1_COUNTRIES`, `TIER2_COUNTRIES`,
  `OTHER_COUNTRY_CODE` (lines 28–53);
* the merger `tiered_merge_ranges` (lines 78–109);
* the record classifier inside `main` (lines 150–176);
* the assembler inside `main` (lines 180–215).

Addresses are modelled as `Int` (Python integers are unbounded; the actual
values are IPv4 addresses in `[0, 2^32)`, but nothing in the code depends on
that bound).  Fallible steps (`ip_network` parsing, dictionary lookup misses)
are modelled with `Option`.
-/

/-- The set `TIER1_COUNTRIES` (build_database.py, lines 28–37). -/
def TIER1_COUNTRIES : List String := ["CN", "HK", "JP", "KR", "US", "AU", "NZ", "SG"]

/-- The set `TIER2_COUNTRIES` (build_database.py, lines 40–51). -/
def TIER2_COUNTRIES : List String := ["DE", "GB", "FR", "RU", "IN", "CA", "IT", "NL", "TW"]

/-- The catch-all code `OTHER_COUNTRY_CODE` (build_database.py, line 53). -/
def OTHER_COUNTRY_CODE : String := "ZZ"

/-- The `merge_threshold` selected inside the sweep loop of
`tiered_merge_ranges` (build_database.py, lines 91–99): tier 1 → 1,
tier 2 → 262144, anything else → 16777216. -/
def merge_threshold (tier_level : Nat) : Int :=
  if tier_level = 1 then 1
  else if tier_level = 2 then 262144
  else 16777216

/-- Python tuple comparison `(s1, e1) <= (s2, e2)`: the order used by
`ranges.sort()` on line 86 (lexicographic on the pair). -/
def pairLeRel (a b : Int × Int) : Prop :=
  a.1 < b.1 ∨ (a.1 = b.1 ∧ a.2 ≤ b.2)

instance : DecidableRel pairLeRel := fun a b => by
  unfold pairLeRel; infer_instance

instance : IsTotal (Int × Int) pairLeRel :=
  ⟨fun a b => by unfold pairLeRel; omega⟩

instance : IsTrans (Int × Int) pairLeRel :=
  ⟨fun a b c hab hbc => by unfold pairLeRel at *; omega⟩

/-- The sweep loop of `tiered_merge_ranges` (build_database.py, lines 90–107):
current open interval `(cs, ce)`; a subsequent `(s, e)` is absorbed when
`s - ce <= merge_threshold` (with `ce = e` only `if e > ce`), otherwise
`(cs, ce)` is emitted and `(s, e)` starts a new interval; the final open
interval is emitted at the end (line 108). -/
def mergeSweep (tier_level : Nat) (cs ce : Int) : List (Int × Int) → List (Int × Int)
  | [] => [(cs, ce)]
  | (s, e) :: rest =>
    if s - ce ≤ merge_threshold tier_level then
      mergeSweep tier_level cs (if e > ce then e else ce) rest
    else
      (cs, ce) :: mergeSweep tier_level s e rest

/-- The function `tiered_merge_ranges(ranges, tier_level)` (build_database.py,
lines 78–109): return `[]` on empty input, else sort the list (Python
`list.sort()` on pairs: a stable sort in lexicographic pair order, modelled
with the equally stable `insertionSort`) and run the sweep starting from the
first element. -/
def tiered_merge_ranges (ranges : List (Int × Int)) (tier_level : Nat) : List (Int × Int) :=
  match ranges.insertionSort pairLeRel with
  | [] => []
  | (cs, ce) :: rest => mergeSweep tier_level cs ce rest

/-- Modelled from the spec, §4.2 sweep: same sweep but parameterised directly
by the threshold, with the extension step written `ce = max(ce, e)` as the
spec words it. -/
def mergeSweepSpec (threshold : Int) (cs ce : Int) : List (Int × Int) → List (Int × Int)
  | [] => [(cs, ce)]
  | (s, e) :: rest =>
    if s - ce ≤ threshold then
      mergeSweepSpec threshold cs (max ce e) rest
    else
      (cs, ce) :: mergeSweepSpec threshold s e rest

/-- Modelled from the spec, §4.2: `merge(ranges, threshold)` — sort ascending
by the `(start, end)` pair, then one left-to-right sweep. -/
def merge_spec (threshold : Int) (ranges : List (Int × Int)) : List (Int × Int) :=
  match ranges.insertionSort pairLeRel with
  | [] => []
  | (cs, ce) :: rest => mergeSweepSpec threshold cs ce rest

/-- A raw CSV row of the blocks file as the classifier sees it
(build_database.py, lines 156–167): the two geoname-id columns (absent
modelled as `none`), and the result of `ip_network(row['network'])` —
`some (network_address, broadcast_address)` when parsing succeeds, `none`
when it raises (the `except: continue` on lines 175–176). -/
structure RawRecord where
  registered_country_geoname_id : Option String
  geoname_id : Option String
  network : Option (Int × Int)

/-- The expression `row.get('registered_country_geoname_id') or row.get('geoname_id')`
(line 160): Python `or` falls through on a missing or empty first field. -/
def effective_geoname_id (r : RawRecord) : Option String :=
  match r.registered_country_geoname_id with
  | some g => if g = "" then r.geoname_id else some g
  | none => r.geoname_id

/-- The lookup `country_map.get(geoname_id, '')` (line 161): resolve the effective
geoname id against the locations mapping, defaulting to the empty string on
a join miss (or a missing id). -/
def country_of (cmap : List (String × String)) (r : RawRecord) : String :=
  match effective_geoname_id r with
  | none => ""
  | some g => (cmap.lookup g).getD ("")

/-- The three classification buckets `tier1_data`, `tier2_data`, `tier3_data`
(lines 150–152).  The Python per-country dicts are modelled as lists of
`(country, range)` pairs in stream order; `tier1_data[c]` is recovered by
filtering on `c`. -/
structure Buckets where
  tier1 : List (String × (Int × Int))
  tier2 : List (String × (Int × Int))
  tier3 : List (Int × Int)

/-- Processing of one row of the blocks file (lines 160–176): resolve the
country (dropping the row when it resolves to `''`), parse the network
(dropping the row when parsing fails), then append to exactly one bucket
according to tier membership (lines 169–174). -/
def classifyRecord (cmap : List (String × String)) (b : Buckets) (r : RawRecord) : Buckets :=
  let country := country_of cmap r
  if country = "" then b
  else
    match r.network with
    | none => b
    | some (s, e) =>
      if country ∈ TIER1_COUNTRIES then
        { b with tier1 := b.tier1 ++ [(country, (s, e))] }
      else if country ∈ TIER2_COUNTRIES then
        { b with tier2 := b.tier2 ++ [(country, (s, e))] }
      else
        { b with tier3 := b.tier3 ++ [(s, e)] }

/-- The classification loop over the whole blocks file (lines 154–176). -/
def classify (cmap : List (String × String)) (records : List RawRecord) : Buckets :=
  records.foldl (classifyRecord cmap) ⟨[], [], []⟩

/-- Python string comparison `a <= b` (lexicographic on code points), the
order used by `sorted(...)` on lines 184 and 195.  This is exactly Lean's
core `String` order `¬ b < a`, written on the underlying character lists. -/
def codeLe (a b : String) : Prop := ¬ b.data < a.data

instance : DecidableRel codeLe := fun _ _ => inferInstanceAs (Decidable (¬ _ < _))

/-- Python `sorted(...)` over a set of country codes, as used on
lines 184 and 195. -/
def sortedCodes (l : List String) : List String :=
  l.insertionSort codeLe

/-- The lists `tier1_data[country]` / `tier2_data[country]`: the ranges collected for
one country, in stream order. -/
def countryRanges (l : List (String × (Int × Int))) (c : String) : List (Int × Int) :=
  (l.filter (fun q => q.1 = c)).map (fun q => q.2)

/-- Step 4.1 of `main` (lines 184–191): for each tier-1 country in sorted
order, merge its ranges at tier level 1 and emit `[s, e, country]` entries. -/
def tier1Entries (b : Buckets) : List (Int × Int × String) :=
  (sortedCodes TIER1_COUNTRIES).flatMap fun c =>
    (tiered_merge_ranges (countryRanges b.tier1 c) 1).map fun p => (p.1, p.2, c)

/-- Step 4.2 of `main` (lines 195–202): same for tier-2 countries at tier
level 2. -/
def tier2Entries (b : Buckets) : List (Int × Int × String) :=
  (sortedCodes TIER2_COUNTRIES).flatMap fun c =>
    (tiered_merge_ranges (countryRanges b.tier2 c) 2).map fun p => (p.1, p.2, c)

/-- Step 4.3 of `main` (lines 206–209): merge the whole tier-3 bucket at tier
level 3 and emit every range under `OTHER_COUNTRY_CODE`. -/
def tier3Entries (b : Buckets) : List (Int × Int × String) :=
  (tiered_merge_ranges b.tier3 3).map fun p => (p.1, p.2, OTHER_COUNTRY_CODE)

/-- The list `all_entries` after steps 4.1–4.3 (lines 180–209): tier-1 entries, then
tier-2 entries, then tier-3 entries. -/
def all_entries (b : Buckets) : List (Int × Int × String) :=
  tier1Entries b ++ tier2Entries b ++ tier3Entries b

/-- The sort key of line 215: compare entries by `start` alone
(`key=lambda x: x[0]`). -/
def startLe (x y : Int × Int × String) : Prop :=
  x.1 ≤ y.1

instance : DecidableRel startLe := fun x y => by
  unfold startLe; infer_instance

instance : IsTotal (Int × Int × String) startLe :=
  ⟨fun a b => by unfold startLe; omega⟩

instance : IsTrans (Int × Int × String) startLe :=
  ⟨fun a b c hab hbc => by unfold startLe at *; omega⟩

/-- Step 5 (line 215): `all_entries.sort(key=lambda x: x[0])` — a stable sort
by `start` alone, modelled with the equally stable `insertionSort`. -/
def finalTable (b : Buckets) : List (Int × Int × String) :=
  (all_entries b).insertionSort startLe

/-- The whole pipeline from parsed rows to the final assembled table. -/
def buildTable (cmap : List (String × String)) (records : List RawRecord) :
    List (Int × Int × String) :=
  finalTable (classify cmap records)

/-- Address `x` is covered by some range in `l` (ranges are closed
intervals). -/
def covered (x : Int) (l : List (Int × Int)) : Prop :=
  ∃ p ∈ l, p.1 ≤ x ∧ x ≤ p.2

instance (x : Int) (l : List (Int × Int)) : Decidable (covered x l) := by
  unfold covered; infer_instance

/-- Two table entries have non-overlapping (closed) address ranges. -/
def entriesDisjoint (p q : Int × Int × String) : Prop :=
  p.2.1 < q.1 ∨ q.2.1 < p.1

instance (p q : Int × Int × String) : Decidable (entriesDisjoint p q) := by
  unfold entriesDisjoint; infer_instance

/-! ### General lemmas about the sweep -/

theorem merge_threshold_pos (tl : Nat) : 1 ≤ merge_threshold tl := by
  unfold merge_threshold
  split
  · omega
  · split <;> omega

theorem max_eq_ite (ce e : Int) : (if e > ce then e else ce) = max ce e := by
  rcases le_or_lt e ce with h | h
  · rw [if_neg (by omega), max_eq_left h]
  · rw [if_pos h, max_eq_right h.le]

/-- The sweep of the code equals the spec-worded sweep at the tier's
threshold (`if e > ce then e else ce` is `max ce e`). -/
theorem mergeSweep_eq_spec (tl : Nat) (cs ce : Int) (l : List (Int × Int)) :
    mergeSweep tl cs ce l = mergeSweepSpec (merge_threshold tl) cs ce l := by
  induction l generalizing cs ce with
  | nil => rfl
  | cons p rest ih =>
    obtain ⟨s, e⟩ := p
    simp only [mergeSweep, mergeSweepSpec]
    split
    · rw [ih, max_eq_ite]
    · rw [ih]

theorem tiered_merge_eq_spec (ranges : List (Int × Int)) (tl : Nat) :
    tiered_merge_ranges ranges tl = merge_spec (merge_threshold tl) ranges := by
  unfold tiered_merge_ranges merge_spec
  cases ranges.insertionSort pairLeRel with
  | nil => rfl
  | cons p rest => exact mergeSweep_eq_spec tl p.1 p.2 rest

/-! ### C2: the merger is the sort-and-sweep algorithm with thresholds
1 / 262144 / 16777216 for tiers 1 / 2 / 3 -/

/-- C2: for every input whose pairs satisfy `start ≤ end`, the code's merger
at tier levels 1, 2 and 3 coincides with the spec's sort-and-sweep `merge`
at thresholds 1, 262144 and 16777216 respectively. -/
theorem tiered_merge_ranges_refines_spec (ranges : List (Int × Int))
    (hvalid : ∀ p ∈ ranges, p.1 ≤ p.2) :
    tiered_merge_ranges ranges 1 = merge_spec 1 ranges ∧
    tiered_merge_ranges ranges 2 = merge_spec 262144 ranges ∧
    tiered_merge_ranges ranges 3 = merge_spec 16777216 ranges :=
  ⟨tiered_merge_eq_spec ranges 1, tiered_merge_eq_spec ranges 2,
    tiered_merge_eq_spec ranges 3⟩

/-- Witness for C2 at the concrete input `[(10, 20), (25, 30), (1000, 1005)]`. -/
theorem tiered_merge_ranges_refines_spec_witness :
    (∀ p ∈ [((10 : Int), (20 : Int)), (25, 30), (1000, 1005)], p.1 ≤ p.2) ∧
    tiered_merge_ranges [(10, 20), (25, 30), (1000, 1005)] 1 =
      merge_spec 1 [(10, 20), (25, 30), (1000, 1005)] ∧
    tiered_merge_ranges [(10, 20), (25, 30), (1000, 1005)] 2 =
      merge_spec 262144 [(10, 20), (25, 30), (1000, 1005)] ∧
    tiered_merge_ranges [(10, 20), (25, 30), (1000, 1005)] 3 =
      merge_spec 16777216 [(10, 20), (25, 30), (1000, 1005)] :=
  ⟨by decide, tiered_merge_ranges_refines_spec _ (by decide)⟩

/-! ### C9: base cases of the merger and sanity of the tier sets -/

/-- C9: the merger maps `[]` to `[]` and any singleton to itself; no code is
in both tier sets, and the catch-all code `ZZ` is in neither. -/
theorem merger_base_cases_and_tier_sets :
    (∀ tl, tiered_merge_ranges [] tl = []) ∧
    (∀ p tl, tiered_merge_ranges [p] tl = [p]) ∧
    (∀ c ∈ TIER1_COUNTRIES, c ∉ TIER2_COUNTRIES) ∧
    OTHER_COUNTRY_CODE ∉ TIER1_COUNTRIES ∧
    OTHER_COUNTRY_CODE ∉ TIER2_COUNTRIES := by
  refine ⟨fun tl => rfl, fun p tl => rfl, by decide, by decide, by decide⟩

/-- Witness for C9 at `p = (3, 7)`, `tl = 2`, `c = "CN"`. -/
theorem merger_base_cases_and_tier_sets_witness :
    tiered_merge_ranges [] 2 = [] ∧
    tiered_merge_ranges [((3 : Int), (7 : Int))] 2 = [(3, 7)] ∧
    ("CN" ∈ TIER1_COUNTRIES ∧ "CN" ∉ TIER2_COUNTRIES) :=
  ⟨merger_base_cases_and_tier_sets.1 2,
    merger_base_cases_and_tier_sets.2.1 (3, 7) 2,
    by decide, merger_base_cases_and_tier_sets.2.2.1 ("CN") (by decide)⟩

/-! ### C8: dropped records -/

/-- C8: a record whose region code resolves to the empty string (missing or
join-missed geoname id, or an empty mapped code) is added to no bucket, and a
record whose network fails to parse is added to no bucket; `classifyRecord`
is total, so no record-level error escapes. -/
theorem classifier_drops_bad_records (cmap : List (String × String))
    (b : Buckets) (r : RawRecord) :
    (country_of cmap r = "" → classifyRecord cmap b r = b) ∧
    (r.network = none → classifyRecord cmap b r = b) := by
  constructor
  · intro h
    simp [classifyRecord, h]
  · intro h
    simp [classifyRecord, h]

/-- Witness for C8: a join-missed record and an unparsable record are both
dropped. -/
theorem classifier_drops_bad_records_witness :
    (country_of [("1", "CN")] ⟨some ("9"), none, some (5, 6)⟩ = "" ∧
      classifyRecord [("1", "CN")] ⟨[], [], []⟩ ⟨some ("9"), none, some (5, 6)⟩ = ⟨[], [], []⟩) ∧
    ((⟨some ("1"), none, none⟩ : RawRecord).network = none ∧
      classifyRecord [("1", "CN")] ⟨[], [], []⟩ ⟨some ("1"), none, none⟩ = ⟨[], [], []⟩) :=
  ⟨⟨by decide, (classifier_drops_bad_records _ _ _).1 (by decide)⟩,
    ⟨rfl, (classifier_drops_bad_records _ _ _).2 rfl⟩⟩

/-! ### C7: the classifier routes each kept record to exactly one bucket -/

theorem tier3Entries_code (b : Buckets) :
    ∀ p ∈ tier3Entries b, p.2.2 = OTHER_COUNTRY_CODE := by
  intro p hp
  unfold tier3Entries at hp
  obtain ⟨q, _, rfl⟩ := List.mem_map.mp hp
  rfl

/-- C7: a kept record (resolved non-empty code, parsed network) is appended
to exactly one bucket — the tier-1 list of its code when the code is in
`TIER1_COUNTRIES`, else the tier-2 list of its code when in
`TIER2_COUNTRIES`, else the codeless tier-3 list — and every tier-3 entry of
the assembled output is emitted under `OTHER_COUNTRY_CODE`. -/
theorem classifier_routes_to_one_bucket (cmap : List (String × String))
    (b : Buckets) (r : RawRecord) (s e : Int) (c : String)
    (hc : country_of cmap r = c) (hne : c ≠ "") (hn : r.network = some (s, e)) :
    (c ∈ TIER1_COUNTRIES →
      classifyRecord cmap b r = { b with tier1 := b.tier1 ++ [(c, (s, e))] }) ∧
    (c ∉ TIER1_COUNTRIES → c ∈ TIER2_COUNTRIES →
      classifyRecord cmap b r = { b with tier2 := b.tier2 ++ [(c, (s, e))] }) ∧
    (c ∉ TIER1_COUNTRIES → c ∉ TIER2_COUNTRIES →
      classifyRecord cmap b r = { b with tier3 := b.tier3 ++ [(s, e)] }) ∧
    (∀ p ∈ tier3Entries b, p.2.2 = OTHER_COUNTRY_CODE) := by
  refine ⟨?_, ?_, ?_, tier3Entries_code b⟩
  · intro h1
    simp [classifyRecord, hc, hne, hn, h1]
  · intro h1 h2
    simp [classifyRecord, hc, hne, hn, h1, h2]
  · intro h1 h2
    simp [classifyRecord, hc, hne, hn, h1, h2]

/-- Witness for C7: a `CN` record goes to the tier-1 bucket only. -/
theorem classifier_routes_to_one_bucket_witness :
    country_of [("1", "CN")] ⟨some ("1"), none, some (5, 9)⟩ = "CN" ∧
    ("CN" : String) ≠ "" ∧
    (⟨some ("1"), none, some (5, 9)⟩ : RawRecord).network = some (5, 9) ∧
    "CN" ∈ TIER1_COUNTRIES ∧
    classifyRecord [("1", "CN")] ⟨[], [], []⟩ ⟨some ("1"), none, some (5, 9)⟩ =
      ⟨[("CN", (5, 9))], [], []⟩ :=
  ⟨by decide, by decide, rfl, by decide,
    (classifier_routes_to_one_bucket [("1", "CN")] ⟨[], [], []⟩
      ⟨some ("1"), none, some (5, 9)⟩ 5 9 ("CN") (by decide) (by decide) rfl).1 (by decide)⟩

/-! ### Structure of the sweep output -/

/-- Relation holding between consecutive sweep outputs: lexicographic order
plus a gap wider than the threshold. -/
def sepRel (t : Int) (p q : Int × Int) : Prop :=
  pairLeRel p q ∧ q.1 - p.2 > t

/-- The sweep's output starts with `(cs, d)` for some `d ≥ ce`. -/
theorem mergeSweepSpec_head (t : Int) :
    ∀ (l : List (Int × Int)) (cs ce : Int),
      ∃ d rest, mergeSweepSpec t cs ce l = (cs, d) :: rest ∧ ce ≤ d
  | [], cs, ce => ⟨ce, [], rfl, le_refl ce⟩
  | (s, e) :: l, cs, ce => by
    simp only [mergeSweepSpec]
    split
    · obtain ⟨d, rest, h, hd⟩ := mergeSweepSpec_head t l cs (max ce e)
      exact ⟨d, rest, h, le_trans (le_max_left ce e) hd⟩
    · exact ⟨ce, mergeSweepSpec t s e l, rfl, le_refl ce⟩

/-- On a sorted tail whose elements all lie lexicographically at or after
`(cs, ce)`, consecutive sweep outputs are lexicographically ordered and
separated by more than the threshold. -/
theorem mergeSweepSpec_chain (t : Int) :
    ∀ (l : List (Int × Int)) (cs ce : Int),
      l.Pairwise pairLeRel →
      (∀ p ∈ l, cs < p.1 ∨ (cs = p.1 ∧ ce ≤ p.2)) →
      (mergeSweepSpec t cs ce l).Chain' (sepRel t)
  | [], cs, ce, _, _ => by simp [mergeSweepSpec]
  | (s, e) :: l, cs, ce, hp, hinv => by
    obtain ⟨hhead, htail⟩ := List.pairwise_cons.mp hp
    simp only [mergeSweepSpec]
    split
    case isTrue hle =>
      refine mergeSweepSpec_chain t l cs (max ce e) htail ?_
      intro p hpl
      rcases hinv p (List.mem_cons_of_mem _ hpl) with h | ⟨heq, hce⟩
      · exact Or.inl h
      · refine Or.inr ⟨heq, ?_⟩
        have hse := hinv (s, e) (List.mem_cons_self _ _)
        have hsp := hhead p hpl
        unfold pairLeRel at hsp
        dsimp only at hse hsp
        rw [max_le_iff]
        omega
    case isFalse hgt =>
      rw [List.chain'_cons']
      have hse := hinv (s, e) (List.mem_cons_self _ _)
      dsimp only at hse
      refine ⟨?_, mergeSweepSpec_chain t l s e htail ?_⟩
      · intro q hq
        obtain ⟨d, rest, heq2, hd⟩ := mergeSweepSpec_head t l s e
        rw [heq2] at hq
        simp only [List.head?_cons, Option.mem_def, Option.some.injEq] at hq
        subst hq
        refine ⟨?_, ?_⟩
        · unfold pairLeRel
          dsimp only
          omega
        · dsimp only
          omega
      · intro p hpl
        have hsp := hhead p hpl
        unfold pairLeRel at hsp
        dsimp only at hsp
        exact hsp

/-- A list that is already chained by `sepRel t` is returned unchanged by the
sweep. -/
theorem mergeSweepSpec_of_chain (t : Int) :
    ∀ (l : List (Int × Int)) (cs ce : Int),
      ((cs, ce) :: l).Chain' (sepRel t) →
      mergeSweepSpec t cs ce l = (cs, ce) :: l
  | [], _, _, _ => rfl
  | (s, e) :: l, cs, ce, h => by
    obtain ⟨⟨hlex, hgap⟩, htail⟩ := List.chain'_cons.mp h
    dsimp only at hgap
    simp only [mergeSweepSpec]
    rw [if_neg (by omega), mergeSweepSpec_of_chain t l s e htail]

theorem merge_spec_eq_sweep {ranges rest : List (Int × Int)} {t cs ce : Int}
    (hs : ranges.insertionSort pairLeRel = (cs, ce) :: rest) :
    merge_spec t ranges = mergeSweepSpec t cs ce rest := by
  unfold merge_spec
  rw [hs]

theorem merge_spec_eq_nil {ranges : List (Int × Int)} {t : Int}
    (hs : ranges.insertionSort pairLeRel = []) :
    merge_spec t ranges = [] := by
  unfold merge_spec
  rw [hs]

/-- The merged output is chained: consecutive entries are in lexicographic
order and separated by more than the threshold. -/
theorem merge_spec_chain (t : Int) (ranges : List (Int × Int)) :
    (merge_spec t ranges).Chain' (sepRel t) := by
  cases hs : ranges.insertionSort pairLeRel with
  | nil => rw [merge_spec_eq_nil hs]; exact List.chain'_nil
  | cons p rest =>
    obtain ⟨ps, pe⟩ := p
    rw [merge_spec_eq_sweep hs]
    have hpw : ((ps, pe) :: rest).Pairwise pairLeRel := by
      rw [← hs]
      exact List.sorted_insertionSort pairLeRel ranges
    obtain ⟨hhead, htail⟩ := List.pairwise_cons.mp hpw
    refine mergeSweepSpec_chain t rest ps pe htail ?_
    intro q hq
    have h := hhead q hq
    unfold pairLeRel at h
    dsimp only at h
    exact h

/-- The merged output is sorted in the lexicographic pair order. -/
theorem merge_spec_pairwise (t : Int) (ranges : List (Int × Int)) :
    (merge_spec t ranges).Pairwise pairLeRel :=
  List.chain'_iff_pairwise.mp ((merge_spec_chain t ranges).imp fun _ _ h => h.1)

/-! ### C6: idempotence of the merger -/

theorem merge_spec_idem (t : Int) (ranges : List (Int × Int)) :
    merge_spec t (merge_spec t ranges) = merge_spec t ranges := by
  cases h : merge_spec t ranges with
  | nil => rfl
  | cons p rest =>
    obtain ⟨ps, pe⟩ := p
    have hchain : (((ps, pe) :: rest) : List (Int × Int)).Chain' (sepRel t) := by
      rw [← h]; exact merge_spec_chain t ranges
    have hpw : (((ps, pe) :: rest) : List (Int × Int)).Pairwise pairLeRel := by
      rw [← h]; exact merge_spec_pairwise t ranges
    have hsorted : ((ps, pe) :: rest).insertionSort pairLeRel = (ps, pe) :: rest :=
      List.Sorted.insertionSort_eq hpw
    rw [merge_spec_eq_sweep hsorted]
    exact mergeSweepSpec_of_chain t rest ps pe hchain

/-- C6: re-merging an already-merged list with the same tier level returns it
unchanged. -/
theorem merger_idempotent (ranges : List (Int × Int)) (tl : Nat) :
    tiered_merge_ranges (tiered_merge_ranges ranges tl) tl = tiered_merge_ranges ranges tl := by
  rw [tiered_merge_eq_spec, tiered_merge_eq_spec, merge_spec_idem]

/-! ### C5: threshold monotonicity -/

/-- A larger current end never yields more output intervals (the open
interval's start does not influence the count). -/
theorem mergeSweepSpec_length_mono_ce (t : Int) :
    ∀ (l : List (Int × Int)) (ce ce' cs cs' : Int), ce ≤ ce' →
      (mergeSweepSpec t cs' ce' l).length ≤ (mergeSweepSpec t cs ce l).length
  | [], _, _, _, _, _ => by simp [mergeSweepSpec]
  | (s, e) :: l, ce, ce', cs, cs', hce => by
    simp only [mergeSweepSpec]
    by_cases h1 : s - ce ≤ t
    · rw [if_pos h1, if_pos (by omega : s - ce' ≤ t)]
      exact mergeSweepSpec_length_mono_ce t l (max ce e) (max ce' e) cs cs'
        (max_le_max hce le_rfl)
    · rw [if_neg h1]
      by_cases h2 : s - ce' ≤ t
      · rw [if_pos h2]
        calc (mergeSweepSpec t cs' (max ce' e) l).length
            ≤ (mergeSweepSpec t s e l).length :=
              mergeSweepSpec_length_mono_ce t l e (max ce' e) s cs' (le_max_right ce' e)
          _ ≤ ((cs, ce) :: mergeSweepSpec t s e l).length := by
              simp [Nat.le_succ]
      · rw [if_neg h2]
        simp only [List.length_cons]
        exact Nat.succ_le_succ (mergeSweepSpec_length_mono_ce t l e e s s le_rfl)

/-- A larger threshold never yields more output intervals. -/
theorem mergeSweepSpec_length_mono_t :
    ∀ (l : List (Int × Int)) (t t' cs ce : Int), t ≤ t' →
      (mergeSweepSpec t' cs ce l).length ≤ (mergeSweepSpec t cs ce l).length
  | [], _, _, _, _, _ => le_rfl
  | (s, e) :: l, t, t', cs, ce, ht => by
    simp only [mergeSweepSpec]
    by_cases h1 : s - ce ≤ t
    · rw [if_pos h1, if_pos (by omega : s - ce ≤ t')]
      exact mergeSweepSpec_length_mono_t l t t' cs (max ce e) ht
    · rw [if_neg h1]
      by_cases h2 : s - ce ≤ t'
      · rw [if_pos h2]
        calc (mergeSweepSpec t' cs (max ce e) l).length
            ≤ (mergeSweepSpec t' s e l).length :=
              mergeSweepSpec_length_mono_ce t' l e (max ce e) s cs (le_max_right ce e)
          _ ≤ (mergeSweepSpec t s e l).length := mergeSweepSpec_length_mono_t l t t' s e ht
          _ ≤ ((cs, ce) :: mergeSweepSpec t s e l).length := by simp [Nat.le_succ]
      · rw [if_neg h2]
        simp only [List.length_cons]
        exact Nat.succ_le_succ (mergeSweepSpec_length_mono_t l t t' s e ht)

/-- C5: merging the same input at a tier level with a strictly larger
threshold never produces more output intervals (thresholds 1, 262144,
16777216 for tier levels 1, 2, 3). -/
theorem merger_threshold_monotone (ranges : List (Int × Int)) (i j : Nat)
    (h : merge_threshold i < merge_threshold j) :
    (tiered_merge_ranges ranges j).length ≤ (tiered_merge_ranges ranges i).length := by
  rw [tiered_merge_eq_spec, tiered_merge_eq_spec]
  cases hs : ranges.insertionSort pairLeRel with
  | nil => rw [merge_spec_eq_nil hs, merge_spec_eq_nil hs]
  | cons p rest =>
    obtain ⟨ps, pe⟩ := p
    rw [merge_spec_eq_sweep hs, merge_spec_eq_sweep hs]
    exact mergeSweepSpec_length_mono_t rest _ _ ps pe h.le

/-- Witness for C5 at tier levels 1 < 2 on `[(0, 0), (100, 100)]` (the tier-2
merge bridges the gap, the tier-1 merge does not). -/
theorem merger_threshold_monotone_witness :
    merge_threshold 1 < merge_threshold 2 ∧
    (tiered_merge_ranges [((0 : Int), (0 : Int)), (100, 100)] 2).length ≤
      (tiered_merge_ranges [((0 : Int), (0 : Int)), (100, 100)] 1).length :=
  ⟨by decide, merger_threshold_monotone [(0, 0), (100, 100)] 1 2 (by decide)⟩

/-! ### C10: invariants of the merger's output -/

/-- With a valid open interval and valid inputs, every sweep output is
valid (`start ≤ end`). -/
theorem mergeSweepSpec_valid (t : Int) :
    ∀ (l : List (Int × Int)) (cs ce : Int), cs ≤ ce → (∀ p ∈ l, p.1 ≤ p.2) →
      ∀ q ∈ mergeSweepSpec t cs ce l, q.1 ≤ q.2
  | [], cs, ce, h, _, q, hq => by
    simp only [mergeSweepSpec, List.mem_singleton] at hq
    subst hq
    exact h
  | (s, e) :: l, cs, ce, h, hval, q, hq => by
    simp only [mergeSweepSpec] at hq
    split at hq
    · exact mergeSweepSpec_valid t l cs (max ce e) (le_trans h (le_max_left ce e))
        (fun p hp => hval p (List.mem_cons_of_mem _ hp)) q hq
    · rcases List.mem_cons.mp hq with rfl | hq2
      · exact h
      · exact mergeSweepSpec_valid t l s e (hval (s, e) (List.mem_cons_self _ _))
          (fun p hp => hval p (List.mem_cons_of_mem _ hp)) q hq2

theorem mergeSweepSpec_length_pos (t : Int) (l : List (Int × Int)) (cs ce : Int) :
    1 ≤ (mergeSweepSpec t cs ce l).length := by
  obtain ⟨d, rest, h, _⟩ := mergeSweepSpec_head t l cs ce
  rw [h]
  simp

theorem mergeSweepSpec_length_le (t : Int) :
    ∀ (l : List (Int × Int)) (cs ce : Int),
      (mergeSweepSpec t cs ce l).length ≤ l.length + 1
  | [], _, _ => le_rfl
  | (s, e) :: l, cs, ce => by
    simp only [mergeSweepSpec]
    split
    · exact le_trans (mergeSweepSpec_length_le t l cs (max ce e)) (by simp)
    · simp only [List.length_cons]
      exact Nat.succ_le_succ (mergeSweepSpec_length_le t l s e)

/-- Strengthen a chain relation using a property of the list's members. -/
theorem chain_imp_of_mem {α : Type} {R S : α → α → Prop} {P : α → Prop} :
    ∀ (l : List α), (∀ a ∈ l, P a) → l.Chain' R →
      (∀ a b, P a → P b → R a b → S a b) → l.Chain' S
  | [], _, _, _ => List.chain'_nil
  | [_], _, _, _ => List.chain'_singleton _
  | a :: b :: l, hP, hc, himp => by
    obtain ⟨hab, htail⟩ := List.chain'_cons.mp hc
    exact List.chain'_cons.mpr
      ⟨himp a b (hP a (List.mem_cons_self _ _)) (hP b (List.mem_cons_of_mem _ (List.mem_cons_self _ _))) hab,
        chain_imp_of_mem (b :: l) (fun x hx => hP x (List.mem_cons_of_mem _ hx)) htail himp⟩

/-- C10: on a non-empty valid input, the merger's output has strictly
increasing starts with consecutive gaps above the tier's threshold, all
output pairs are valid, and the output has between 1 and `ranges.length`
intervals. -/
theorem merger_output_invariants (ranges : List (Int × Int)) (tl : Nat)
    (hne : ranges ≠ []) (hvalid : ∀ p ∈ ranges, p.1 ≤ p.2) :
    (tiered_merge_ranges ranges tl).Chain'
      (fun p q => p.1 < q.1 ∧ q.1 - p.2 > merge_threshold tl) ∧
    (∀ p ∈ tiered_merge_ranges ranges tl, p.1 ≤ p.2) ∧
    1 ≤ (tiered_merge_ranges ranges tl).length ∧
    (tiered_merge_ranges ranges tl).length ≤ ranges.length := by
  rw [tiered_merge_eq_spec]
  cases hs : ranges.insertionSort pairLeRel with
  | nil =>
    exact absurd (((List.perm_insertionSort pairLeRel ranges).symm.trans (hs ▸ List.Perm.refl _)).eq_nil) hne
  | cons p rest =>
    obtain ⟨ps, pe⟩ := p
    rw [merge_spec_eq_sweep hs]
    have hmem : ∀ q ∈ (ps, pe) :: rest, q.1 ≤ q.2 := by
      intro q hq
      refine hvalid q ?_
      rw [← List.mem_insertionSort pairLeRel, hs]
      exact hq
    have hvalid_out : ∀ q ∈ mergeSweepSpec (merge_threshold tl) ps pe rest, q.1 ≤ q.2 :=
      mergeSweepSpec_valid _ rest ps pe (hmem (ps, pe) (List.mem_cons_self _ _))
        (fun q hq => hmem q (List.mem_cons_of_mem _ hq))
    refine ⟨?_, hvalid_out, mergeSweepSpec_length_pos _ rest ps pe, ?_⟩
    · have hchain : (mergeSweepSpec (merge_threshold tl) ps pe rest).Chain'
          (sepRel (merge_threshold tl)) := by
        rw [← merge_spec_eq_sweep hs]
        exact merge_spec_chain _ ranges
      have ht := merge_threshold_pos tl
      refine chain_imp_of_mem _ hvalid_out hchain ?_
      intro a b hPa _ hab
      obtain ⟨_, hgap⟩ := hab
      exact ⟨by omega, hgap⟩
    · calc (mergeSweepSpec (merge_threshold tl) ps pe rest).length
          ≤ rest.length + 1 := mergeSweepSpec_length_le _ rest ps pe
        _ = ((ps, pe) :: rest).length := rfl
        _ = ranges.length := by rw [← hs, List.length_insertionSort]

/-- Witness for C10 at `[(10, 12), (0, 5)]`, tier level 1. -/
theorem merger_output_invariants_witness :
    (([((10 : Int), (12 : Int)), (0, 5)] : List (Int × Int)) ≠ [] ∧
      ∀ p ∈ [((10 : Int), (12 : Int)), (0, 5)], p.1 ≤ p.2) ∧
    ((tiered_merge_ranges [((10 : Int), (12 : Int)), (0, 5)] 1).Chain'
        (fun p q => p.1 < q.1 ∧ q.1 - p.2 > merge_threshold 1) ∧
      (∀ p ∈ tiered_merge_ranges [((10 : Int), (12 : Int)), (0, 5)] 1, p.1 ≤ p.2) ∧
      1 ≤ (tiered_merge_ranges [((10 : Int), (12 : Int)), (0, 5)] 1).length ∧
      (tiered_merge_ranges [((10 : Int), (12 : Int)), (0, 5)] 1).length ≤
        ([((10 : Int), (12 : Int)), (0, 5)] : List (Int × Int)).length) :=
  ⟨⟨by decide, by decide⟩,
    merger_output_invariants [(10, 12), (0, 5)] 1 (by decide) (by decide)⟩

/-! ### C3: coverage -/

theorem covered_nil (x : Int) : ¬ covered x [] := by
  simp [covered]

theorem covered_cons {x : Int} {p : Int × Int} {l : List (Int × Int)} :
    covered x (p :: l) ↔ (p.1 ≤ x ∧ x ≤ p.2) ∨ covered x l := by
  unfold covered
  constructor
  · rintro ⟨q, hq, h1, h2⟩
    rcases List.mem_cons.mp hq with rfl | hq2
    · exact Or.inl ⟨h1, h2⟩
    · exact Or.inr ⟨q, hq2, h1, h2⟩
  · rintro (⟨h1, h2⟩ | ⟨q, hq, h1, h2⟩)
    · exact ⟨p, List.mem_cons_self _ _, h1, h2⟩
    · exact ⟨q, List.mem_cons_of_mem _ hq, h1, h2⟩

theorem covered_perm {x : Int} {l l' : List (Int × Int)} (h : l.Perm l') :
    covered x l ↔ covered x l' := by
  unfold covered
  constructor
  · rintro ⟨p, hp, h1⟩
    exact ⟨p, h.mem_iff.mp hp, h1⟩
  · rintro ⟨p, hp, h1⟩
    exact ⟨p, h.mem_iff.mpr hp, h1⟩

/-- Every address covered by the open interval or by the (sorted) tail is
covered by the sweep's output. -/
theorem mergeSweepSpec_covers (t : Int) :
    ∀ (l : List (Int × Int)) (cs ce x : Int),
      l.Pairwise pairLeRel →
      (∀ p ∈ l, cs ≤ p.1) →
      ((cs ≤ x ∧ x ≤ ce) ∨ covered x l) →
      covered x (mergeSweepSpec t cs ce l)
  | [], cs, ce, x, _, _, hx => by
    rcases hx with hx | hx
    · exact ⟨(cs, ce), List.mem_singleton_self _, hx⟩
    · exact absurd hx (covered_nil x)
  | (s, e) :: l, cs, ce, x, hp, hlo, hx => by
    obtain ⟨hhead, htail⟩ := List.pairwise_cons.mp hp
    have hcs : cs ≤ s := hlo (s, e) (List.mem_cons_self _ _)
    simp only [mergeSweepSpec]
    split
    · refine mergeSweepSpec_covers t l cs (max ce e) x htail
        (fun p hp2 => hlo p (List.mem_cons_of_mem _ hp2)) ?_
      rcases hx with ⟨h1, h2⟩ | hx2
      · exact Or.inl ⟨h1, le_trans h2 (le_max_left ce e)⟩
      · rcases covered_cons.mp hx2 with ⟨h1, h2⟩ | hx3
        · exact Or.inl ⟨le_trans hcs h1, le_trans h2 (le_max_right ce e)⟩
        · exact Or.inr hx3
    · rcases hx with hx1 | hx2
      · exact covered_cons.mpr (Or.inl hx1)
      · refine covered_cons.mpr (Or.inr ?_)
        refine mergeSweepSpec_covers t l s e x htail ?_ ?_
        · intro p hp2
          have h := hhead p hp2
          unfold pairLeRel at h
          omega
        · rcases covered_cons.mp hx2 with h | h
          · exact Or.inl h
          · exact Or.inr h

/-- At threshold 1 the sweep adds no coverage: only overlapping or directly
adjacent intervals are fused. -/
theorem mergeSweepSpec_covered_t1 :
    ∀ (l : List (Int × Int)) (cs ce x : Int),
      covered x (mergeSweepSpec 1 cs ce l) →
      (cs ≤ x ∧ x ≤ ce) ∨ covered x l
  | [], cs, ce, x, h => by
    rcases covered_cons.mp h with h1 | h1
    · exact Or.inl h1
    · exact absurd h1 (covered_nil x)
  | (s, e) :: l, cs, ce, x, h => by
    simp only [mergeSweepSpec] at h
    split at h
    case isTrue hle =>
      rcases mergeSweepSpec_covered_t1 l cs (max ce e) x h with ⟨h1, h2⟩ | h3
      · by_cases hce : x ≤ ce
        · exact Or.inl ⟨h1, hce⟩
        · refine Or.inr (covered_cons.mpr (Or.inl ⟨by omega, ?_⟩))
          rcases max_choice ce e with hm | hm <;> omega
      · exact Or.inr (covered_cons.mpr (Or.inr h3))
    case isFalse hgt =>
      rcases covered_cons.mp h with h1 | h1
      · exact Or.inl h1
      · rcases mergeSweepSpec_covered_t1 l s e x h1 with h2 | h2
        · exact Or.inr (covered_cons.mpr (Or.inl h2))
        · exact Or.inr (covered_cons.mpr (Or.inr h2))

/-- Amended C3, the part that holds: no coverage is ever dropped (every
tier), and at tier level 1 (threshold 1) coverage is exactly preserved. -/
theorem merger_coverage (tl : Nat) (ranges : List (Int × Int)) (x : Int) :
    (covered x ranges → covered x (tiered_merge_ranges ranges tl)) ∧
    (covered x (tiered_merge_ranges ranges 1) ↔ covered x ranges) := by
  have key : ∀ (tl' : Nat), covered x ranges → covered x (tiered_merge_ranges ranges tl') := by
    intro tl' hcov
    rw [tiered_merge_eq_spec]
    cases hs : ranges.insertionSort pairLeRel with
    | nil =>
      have hnil : ranges = [] :=
        ((List.perm_insertionSort pairLeRel ranges).symm.trans (hs ▸ List.Perm.refl _)).eq_nil
      rw [hnil] at hcov
      exact absurd hcov (covered_nil x)
    | cons p rest =>
      obtain ⟨ps, pe⟩ := p
      rw [merge_spec_eq_sweep hs]
      have hsorted : ((ps, pe) :: rest).Pairwise pairLeRel := by
        rw [← hs]
        exact List.sorted_insertionSort pairLeRel ranges
      obtain ⟨hhead, htail⟩ := List.pairwise_cons.mp hsorted
      have hperm : ((ps, pe) :: rest).Perm ranges := hs ▸ List.perm_insertionSort pairLeRel ranges
      have hcov2 : covered x ((ps, pe) :: rest) := (covered_perm hperm).mpr hcov
      refine mergeSweepSpec_covers _ rest ps pe x htail ?_ ?_
      · intro q hq2
        have h := hhead q hq2
        unfold pairLeRel at h
        omega
      · rcases covered_cons.mp hcov2 with h | h
        · exact Or.inl h
        · exact Or.inr h
  refine ⟨key tl, ?_, key 1⟩
  intro hcov
  rw [tiered_merge_eq_spec] at hcov
  cases hs : ranges.insertionSort pairLeRel with
  | nil =>
    rw [merge_spec_eq_nil hs] at hcov
    exact absurd hcov (covered_nil x)
  | cons p rest =>
    obtain ⟨ps, pe⟩ := p
    rw [merge_spec_eq_sweep hs] at hcov
    have hperm : ((ps, pe) :: rest).Perm ranges := hs ▸ List.perm_insertionSort pairLeRel ranges
    refine (covered_perm hperm).mp ?_
    have h1 : merge_threshold 1 = 1 := rfl
    rw [h1] at hcov
    rcases mergeSweepSpec_covered_t1 rest ps pe x hcov with h | h
    · exact covered_cons.mpr (Or.inl h)
    · exact covered_cons.mpr (Or.inr h)

/-- Counterexample to C3 as stated: at tier level 2 the merge of
`[(0, 0), (100, 100)]` is `[(0, 100)]`, which covers address 50 even though
the input does not. -/
theorem merger_coverage_counterexample :
    tiered_merge_ranges [((0 : Int), (0 : Int)), (100, 100)] 2 = [(0, 100)] ∧
    covered 50 (tiered_merge_ranges [((0 : Int), (0 : Int)), (100, 100)] 2) ∧
    ¬ covered 50 [((0 : Int), (0 : Int)), (100, 100)] := by
  refine ⟨by decide, by decide, by decide⟩

/-- Witness for the amended C3 at `ranges = [(5, 10)]`, `x = 7`, tier 3. -/
theorem merger_coverage_witness :
    covered 7 [((5 : Int), (10 : Int))] ∧
    covered 7 (tiered_merge_ranges [((5 : Int), (10 : Int))] 3) ∧
    (covered 7 (tiered_merge_ranges [((5 : Int), (10 : Int))] 1) ↔
      covered 7 [((5 : Int), (10 : Int))]) :=
  ⟨by decide, (merger_coverage 3 [(5, 10)] 7).1 (by decide),
    (merger_coverage 3 [(5, 10)] 7).2⟩

/-! ### C4: the final table is sorted by start -/

/-- C4: adjacent entries of the final assembled table have non-decreasing
`start` values, for any locations mapping and any record stream. -/
theorem table_sorted_by_start (cmap : List (String × String)) (records : List RawRecord)
    (i : Nat) (h : i + 1 < (buildTable cmap records).length) :
    ((buildTable cmap records).get ⟨i, Nat.lt_of_succ_lt h⟩).1 ≤
      ((buildTable cmap records).get ⟨i + 1, h⟩).1 := by
  have hs : (buildTable cmap records).Sorted startLe :=
    List.sorted_insertionSort startLe (all_entries (classify cmap records))
  exact hs.rel_get_of_lt (Fin.mk_lt_mk.mpr (Nat.lt_succ_self i))

/-- Witness for C4 on a concrete two-entry table. -/
theorem table_sorted_by_start_witness :
    0 + 1 < (buildTable [("1", "CN")]
      [⟨some ("1"), none, some (0, 10)⟩, ⟨some ("1"), none, some (1000, 2000)⟩]).length ∧
    ((buildTable [("1", "CN")]
        [⟨some ("1"), none, some (0, 10)⟩, ⟨some ("1"), none, some (1000, 2000)⟩]).get
        ⟨0, Nat.lt_of_succ_lt (by decide)⟩).1 ≤
      ((buildTable [("1", "CN")]
        [⟨some ("1"), none, some (0, 10)⟩, ⟨some ("1"), none, some (1000, 2000)⟩]).get
        ⟨0 + 1, by decide⟩).1 :=
  ⟨by decide, table_sorted_by_start [("1", "CN")]
    [⟨some ("1"), none, some (0, 10)⟩, ⟨some ("1"), none, some (1000, 2000)⟩] 0 (by decide)⟩

/-! ### C1: disjointness in the final table -/

/-- Entries sharing a region code must have disjoint ranges. -/
def sameCodeDisjoint (p q : Int × Int × String) : Prop :=
  p.2.2 = q.2.2 → entriesDisjoint p q

theorem sameCodeDisjoint_symm {p q : Int × Int × String}
    (h : sameCodeDisjoint p q) : sameCodeDisjoint q p :=
  fun hc => (h hc.symm).symm

/-- Any two merged intervals of one `tiered_merge_ranges` call are strictly
separated: the earlier one ends before the later one starts. -/
theorem tiered_merge_pairwise_sep (ranges : List (Int × Int)) (tl : Nat) :
    (tiered_merge_ranges ranges tl).Pairwise (fun p q => p.2 < q.1 ∧ p.1 ≤ q.1) := by
  rw [tiered_merge_eq_spec]
  have hchain := merge_spec_chain (merge_threshold tl) ranges
  have ht := merge_threshold_pos tl
  have h2 : (merge_spec (merge_threshold tl) ranges).Chain'
      (fun p q => p.2 < q.1 ∧ p.1 ≤ q.1) := by
    refine hchain.imp ?_
    intro a b hab
    obtain ⟨hlex, hgap⟩ := hab
    unfold pairLeRel at hlex
    exact ⟨by omega, by omega⟩
  haveI : IsTrans (Int × Int) (fun p q => p.2 < q.1 ∧ p.1 ≤ q.1) := by
    refine ⟨?_⟩
    intro a b c h1 h2
    obtain ⟨h3, h4⟩ := h1
    obtain ⟨h5, h6⟩ := h2
    exact ⟨by omega, by omega⟩
  exact List.chain'_iff_pairwise.mp h2

/-- Tagging a separated interval list with a single code yields pairwise
`sameCodeDisjoint` entries. -/
theorem pairwise_tagged_of_sep {l : List (Int × Int)}
    (h : l.Pairwise fun p q => p.2 < q.1 ∧ p.1 ≤ q.1) (c : String) :
    (l.map fun p => (p.1, p.2, c)).Pairwise sameCodeDisjoint :=
  h.map _ (fun _ _ hab _ => Or.inl hab.1)

theorem mem_tagged_code {c : String} {l : List (Int × Int)}
    {q : Int × Int × String} (hq : q ∈ l.map fun p => (p.1, p.2, c)) :
    q.2.2 = c := by
  obtain ⟨p, _, rfl⟩ := List.mem_map.mp hq
  rfl

/-- Concatenating per-code tagged merged lists over distinct codes keeps
entries with equal codes disjoint. -/
theorem pairwise_flatMap_tag (f : String → List (Int × Int))
    (hf : ∀ c, (f c).Pairwise fun p q => p.2 < q.1 ∧ p.1 ≤ q.1) :
    ∀ (cs : List String), cs.Nodup →
      (cs.flatMap fun c => (f c).map fun p => (p.1, p.2, c)).Pairwise sameCodeDisjoint
  | [], _ => List.Pairwise.nil
  | c :: cs, hnd => by
    obtain ⟨hc, hcs⟩ := List.nodup_cons.mp hnd
    rw [List.flatMap_cons, List.pairwise_append]
    refine ⟨pairwise_tagged_of_sep (hf c) c, pairwise_flatMap_tag f hf cs hcs, ?_⟩
    intro a ha b hb
    have hac : a.2.2 = c := mem_tagged_code ha
    obtain ⟨c', hc', hb2⟩ := List.mem_flatMap.mp hb
    have hbc : b.2.2 = c' := mem_tagged_code hb2
    intro hcode
    exact absurd (hc' : c' ∈ cs) (by rw [← hbc, ← hcode, hac] at hc'; exact absurd hc' hc)

theorem sortedCodes_nodup {l : List String} (h : l.Nodup) : (sortedCodes l).Nodup :=
  (List.perm_insertionSort codeLe l).symm.nodup h

theorem tier1Entries_pairwise (b : Buckets) :
    (tier1Entries b).Pairwise sameCodeDisjoint :=
  pairwise_flatMap_tag _ (fun c => tiered_merge_pairwise_sep (countryRanges b.tier1 c) 1)
    (sortedCodes TIER1_COUNTRIES) (sortedCodes_nodup (by decide))

theorem tier2Entries_pairwise (b : Buckets) :
    (tier2Entries b).Pairwise sameCodeDisjoint :=
  pairwise_flatMap_tag _ (fun c => tiered_merge_pairwise_sep (countryRanges b.tier2 c) 2)
    (sortedCodes TIER2_COUNTRIES) (sortedCodes_nodup (by decide))

theorem tier3Entries_pairwise (b : Buckets) :
    (tier3Entries b).Pairwise sameCodeDisjoint :=
  pairwise_tagged_of_sep (tiered_merge_pairwise_sep b.tier3 3) OTHER_COUNTRY_CODE

theorem tier1Entries_codes (b : Buckets) :
    ∀ p ∈ tier1Entries b, p.2.2 ∈ TIER1_COUNTRIES := by
  intro p hp
  obtain ⟨c, hc, hp2⟩ := List.mem_flatMap.mp hp
  rw [mem_tagged_code hp2]
  exact (List.mem_insertionSort codeLe).mp hc

theorem tier2Entries_codes (b : Buckets) :
    ∀ p ∈ tier2Entries b, p.2.2 ∈ TIER2_COUNTRIES := by
  intro p hp
  obtain ⟨c, hc, hp2⟩ := List.mem_flatMap.mp hp
  rw [mem_tagged_code hp2]
  exact (List.mem_insertionSort codeLe).mp hc

theorem all_entries_pairwise (b : Buckets) :
    (all_entries b).Pairwise sameCodeDisjoint := by
  have hT12 : ∀ c ∈ TIER1_COUNTRIES, c ∉ TIER2_COUNTRIES := by decide
  have hZ1 : OTHER_COUNTRY_CODE ∉ TIER1_COUNTRIES := by decide
  have hZ2 : OTHER_COUNTRY_CODE ∉ TIER2_COUNTRIES := by decide
  unfold all_entries
  rw [List.pairwise_append]
  refine ⟨?_, tier3Entries_pairwise b, ?_⟩
  · rw [List.pairwise_append]
    refine ⟨tier1Entries_pairwise b, tier2Entries_pairwise b, ?_⟩
    intro a ha b2 hb hcode
    have h1 := tier1Entries_codes b a ha
    have h2 := tier2Entries_codes b b2 hb
    rw [hcode] at h1
    exact absurd h2 (hT12 _ h1)
  · intro a ha b2 hb hcode
    have h2 := tier3Entries_code b b2 hb
    rcases List.mem_append.mp ha with ha1 | ha2
    · have h1 := tier1Entries_codes b a ha1
      rw [hcode, h2] at h1
      exact absurd h1 hZ1
    · have h1 := tier2Entries_codes b a ha2
      rw [hcode, h2] at h1
      exact absurd h1 hZ2

theorem finalTable_pairwise (b : Buckets) :
    (finalTable b).Pairwise sameCodeDisjoint := by
  have hperm : (finalTable b).Perm (all_entries b) := List.perm_insertionSort startLe _
  exact (List.Perm.pairwise_iff (fun h => sameCodeDisjoint_symm h) hperm).mpr
    (all_entries_pairwise b)

/-- Amended C1: any two distinct entries of the final assembled table that
carry the same region code have disjoint address ranges (entries with
different codes can overlap across tiers). -/
theorem table_same_code_disjoint (cmap : List (String × String))
    (records : List RawRecord) (i j : Nat)
    (hi : i < (buildTable cmap records).length)
    (hj : j < (buildTable cmap records).length) (hne : i ≠ j)
    (hcode : ((buildTable cmap records).get ⟨i, hi⟩).2.2 =
      ((buildTable cmap records).get ⟨j, hj⟩).2.2) :
    entriesDisjoint ((buildTable cmap records).get ⟨i, hi⟩)
      ((buildTable cmap records).get ⟨j, hj⟩) := by
  have hpw := finalTable_pairwise (classify cmap records)
  rw [List.pairwise_iff_getElem] at hpw
  simp only [List.get_eq_getElem]
  rcases Nat.lt_trichotomy i j with hij | hij | hij
  · exact hpw i j hi hj hij (by simpa using hcode)
  · exact absurd hij hne
  · exact (hpw j i hj hi hij (by simpa using hcode.symm)).symm

/-- Counterexample to C1 as stated: with a tier-1 `CN` block inside the gap
between two tier-3 blocks, the assembled table's first two (distinct)
entries overlap: the `ZZ` range `[0, 2000]` contains the `CN` range
`[100, 200]`. -/
theorem table_disjoint_counterexample :
    buildTable [("1", "CN"), ("2", "AR")]
        [⟨some ("1"), none, some (100, 200)⟩, ⟨some ("2"), none, some (0, 10)⟩,
          ⟨some ("2"), none, some (1000, 2000)⟩] =
      [((0 : Int), (2000 : Int), "ZZ"), ((100 : Int), (200 : Int), "CN")] ∧
    ¬ entriesDisjoint ((0 : Int), (2000 : Int), "ZZ") ((100 : Int), (200 : Int), "CN") :=
  ⟨by decide, by decide⟩

/-- Witness for the amended C1 on a table with two same-code entries. -/
theorem table_same_code_disjoint_witness :
    0 < (buildTable [("1", "CN")]
      [⟨some ("1"), none, some (0, 10)⟩, ⟨some ("1"), none, some (1000, 2000)⟩]).length ∧
    1 < (buildTable [("1", "CN")]
      [⟨some ("1"), none, some (0, 10)⟩, ⟨some ("1"), none, some (1000, 2000)⟩]).length ∧
    (0 : Nat) ≠ 1 ∧
    ((buildTable [("1", "CN")]
        [⟨some ("1"), none, some (0, 10)⟩, ⟨some ("1"), none, some (1000, 2000)⟩]).get
        ⟨0, by decide⟩).2.2 =
      ((buildTable [("1", "CN")]
        [⟨some ("1"), none, some (0, 10)⟩, ⟨some ("1"), none, some (1000, 2000)⟩]).get
        ⟨1, by decide⟩).2.2 ∧
    entriesDisjoint
      ((buildTable [("1", "CN")]
        [⟨some ("1"), none, some (0, 10)⟩, ⟨some ("1"), none, some (1000, 2000)⟩]).get
        ⟨0, by decide⟩)
      ((buildTable [("1", "CN")]
        [⟨some ("1"), none, some (0, 10)⟩, ⟨some ("1"), none, some (1000, 2000)⟩]).get
        ⟨1, by decide⟩) :=
  ⟨by decide, by decide, by decide, by decide,
    table_same_code_disjoint [("1", "CN")]
      [⟨some ("1"), none, some (0, 10)⟩, ⟨some ("1"), none, some (1000, 2000)⟩]
      0 1 (by decide) (by decide) (by decide) (by decide)⟩
